import Mathlib

/-!
Verification of the release_maker version-bump and release-tag engine
(`dev-setup/src/release_maker/release_maker.py`).

The Python source is shallowly embedded: pure helpers (`bump_version`,
`tag_to_version`) become Lean functions on strings; the effectful phases
(`apply_version_bump`, `write_results`, `write_tags`,
`fetch_and_get_fetched_tags`) become state-passing functions over an explicit
file-system model and environment oracles, producing an event trace that
records every externally visible action (writes, renames, removals, error
reports, tag creation, pushes) in program order.
-/

namespace ReleaseMaker

/-! ## Decimal numerals

Python renders version components with `f"{n}"`, i.e. decimal numerals.
`digitChar`/`natRepr` model that rendering; `digitsVal` is the value of a
digit string, used to model the `int()` conversion applied to the groups of
the regex `^(\d+)\.(\d+)\.(\d+)$`. -/

def digitChar (d : Nat) : Char :=
  if d = 0 then '0' else if d = 1 then '1' else if d = 2 then '2'
  else if d = 3 then '3' else if d = 4 then '4' else if d = 5 then '5'
  else if d = 6 then '6' else if d = 7 then '7' else if d = 8 then '8'
  else '9'

/-- Decimal rendering worker; the fuel argument only forces structural
recursion and is irrelevant as long as it exceeds the number
(`natReprAux_fuel_irrel`). -/
def natReprAux : Nat → Nat → List Char
  | 0, _ => []
  | fuel + 1, n =>
    if n < 10 then [digitChar n]
    else natReprAux fuel (n / 10) ++ [digitChar (n % 10)]

/-- Decimal rendering of a natural number, most significant digit first. -/
def natRepr (n : Nat) : List Char :=
  natReprAux (n + 1) n

theorem natReprAux_fuel_irrel :
    ∀ f₁ f₂ n : Nat, n < f₁ → n < f₂ → natReprAux f₁ n = natReprAux f₂ n := by
  intro f₁
  induction f₁ with
  | zero => intro f₂ n h; omega
  | succ f₁ ih =>
    intro f₂ n h₁ h₂
    match f₂, h₂ with
    | f₂ + 1, h₂ =>
      simp only [natReprAux]
      by_cases h10 : n < 10
      · simp [h10]
      · simp only [h10, if_neg]
        have hd : n / 10 < n := Nat.div_lt_self (by omega) (by omega)
        rw [ih f₂ (n / 10) (by omega) (by omega)]

/-- The intended recursion equation for `natRepr`. -/
theorem natRepr_eq (n : Nat) :
    natRepr n = if n < 10 then [digitChar n]
      else natRepr (n / 10) ++ [digitChar (n % 10)] := by
  have hd : n / 10 ≤ n := Nat.div_le_self n 10
  have h1 : natRepr n =
      if n < 10 then [digitChar n]
      else natReprAux n (n / 10) ++ [digitChar (n % 10)] := rfl
  rw [h1]
  by_cases h10 : n < 10
  · simp [h10]
  · rw [if_neg h10, if_neg h10]
    have hlt : n / 10 < n := Nat.div_lt_self (by omega) (by omega)
    rw [natReprAux_fuel_irrel n (n / 10 + 1) (n / 10) (by omega) (by omega)]
    rfl

/-- Value of a digit string (most significant digit first). -/
def digitsVal (cs : List Char) : Nat :=
  cs.foldl (fun a c => 10 * a + (c.toNat - 48)) 0

/-- Splits a character list on `'.'` separators (like Python `str.split('.')`,
every occurrence a separator, groups possibly empty). -/
def splitDot : List Char → List (List Char)
  | [] => [[]]
  | c :: rest =>
    if c = '.' then [] :: splitDot rest
    else
      match splitDot rest with
      | g :: gs => (c :: g) :: gs
      | [] => [[c]]

/-- A group matches `\d+`: nonempty, all decimal digits. -/
def isDigitGroup (cs : List Char) : Bool :=
  !cs.isEmpty && cs.all Char.isDigit

/-- `VERSION_PATTERN = re.compile(r"^(\d+)\.(\d+)\.(\d+)$")` together with the
`int` conversion of the three groups: the whole string must consist of three
dot-separated nonempty digit groups. -/
def parseVersionChars (cs : List Char) : Option (Nat × Nat × Nat) :=
  match splitDot cs with
  | [a, b, c] =>
    if isDigitGroup a && isDigitGroup b && isDigitGroup c then
      some (digitsVal a, digitsVal b, digitsVal c)
    else none
  | _ => none

/-- `parseVersionChars` on the character data of a string. -/
def parseVersion (s : String) : Option (Nat × Nat × Nat) :=
  parseVersionChars s.data

/-- `f"{x}.{y}.{z}"` on natural numbers. -/
def renderVersion (x y z : Nat) : String :=
  ⟨natRepr x ++ '.' :: (natRepr y ++ '.' :: natRepr z)⟩

/-- `bump_version(version, bump_level)`; `ValueError` is modelled as
`Except.error`. -/
def bump_version (version : String) (bump_level : String) : Except String String :=
  match parseVersion version with
  | none => .error ("Invalid version format: " ++ version ++
      ". Expected format: X.Y.Z where X, Y, Z are integers")
  | some (major, minor, patch) =>
    if bump_level = "major" then .ok (renderVersion (major + 1) 0 0)
    else if bump_level = "minor" then .ok (renderVersion major (minor + 1) 0)
    else if bump_level = "patch" then .ok (renderVersion major minor (patch + 1))
    else .error ("Invalid bump level: " ++ bump_level ++
      ". Must be one of: major, minor, patch")

/-- Strict lexicographic order on parsed `(major, minor, patch)` triples. -/
def versionLt (a b : Nat × Nat × Nat) : Prop :=
  a.1 < b.1 ∨ (a.1 = b.1 ∧ (a.2.1 < b.2.1 ∨ (a.2.1 = b.2.1 ∧ a.2.2 < b.2.2)))

instance : DecidablePred (fun p : (Nat × Nat × Nat) × (Nat × Nat × Nat) => versionLt p.1 p.2) :=
  fun _ => by unfold versionLt; infer_instance

/-! ## File system and event-trace model

The effectful functions are embedded as state-passing functions over an
association-list file system, an environment of oracles (the outcomes of the
OS and git-client calls: repository detection, dirtiness, write / rename /
remove success), and an event trace recording every externally visible action
in program order. -/

/-- A file system: association list from path to file content (first match
wins). -/
abbrev FS := List (String × String)

def fsGet : FS → String → Option String
  | [], _ => none
  | (q, w) :: rest, p => if q = p then some w else fsGet rest p

def fsSet : FS → String → String → FS
  | [], p, v => [(p, v)]
  | (q, w) :: rest, p, v =>
    if q = p then (p, v) :: rest else (q, w) :: fsSet rest p v

def fsRemove : FS → String → FS
  | [], _ => []
  | (q, w) :: rest, p =>
    if q = p then fsRemove rest p else (q, w) :: fsRemove rest p

/-- `os.replace(src, dst)`: move the content of `src` onto `dst` and remove
`src`.  Only invoked by the model when `src` exists (a missing source is a
rename failure, see `commitLoop`). -/
def fsReplace (fs : FS) (src dst : String) : FS :=
  match fsGet fs src with
  | some v => fsRemove (fsSet fs dst v) src
  | none => fs

/-- Externally visible actions of the engine, in program order. -/
inductive Ev where
  | reportUnclean (path msg : String)
  | stageWrite (tmp : String)
  | stageFail (tmp : String)
  | renameOk (tmp target : String)
  | renameFail (tmp target : String)
  | removeTmp (tmp : String)
  | removeTmpFail (tmp : String)
  | gitCommitPush (repo path version : String)
  | createTag (repo tag : String)
  | pushTag (repo remote tag : String)
  deriving DecidableEq, Repr

/-- Environment oracles: outcomes of the OS / git-client calls made by
`write_results`.  `replaceOk` takes the number of `os.replace` calls already
made, so transient as well as persistent rename failures are expressible. -/
structure Env where
  isRepoDir : String → Bool
  isDirty : String → Bool
  hasUntracked : String → Bool
  writeOk : String → Bool
  replaceOk : Nat → String → Bool
  removeOk : String → Bool

/-- `is_repo_clean(path)`.  `Repo(path)` (without
`search_parent_directories`) succeeds only on a repository directory;
otherwise `InvalidGitRepositoryError` is caught and the function reports
clean.  On a repository: `is_dirty()` first, then `untracked_files`. -/
def is_repo_clean (env : Env) (path : String) : Bool × String :=
  if env.isRepoDir path then
    if env.isDirty path then
      (false, "has uncommitted changes")
    else if env.hasUntracked path then
      (false, "has untracked files")
    else (true, "clean")
  else (true, "not a git repository")

/-- A `VersionBumpResult` as consumed by `write_results`: target manifest
path, serialized new document, owning repository, new version. -/
structure WPlan where
  file_path : String
  doc : String
  git_repo : Option String
  new_version : String
  deriving DecidableEq, Repr

/-- The cleanliness pre-pass of `write_results`: for every result, call
`is_repo_clean(result.file_path)` (note: on the manifest *file* path, not on
`result.git_repo`), collect an error report for each violation, and record
whether any violation occurred. -/
def cleanStep (env : Env) (acc : List Ev × Bool) (r : WPlan) : List Ev × Bool :=
  let c := is_repo_clean env r.file_path
  if c.1 then acc
  else (acc.1 ++ [.reportUnclean r.file_path c.2], true)

def cleanCheck (env : Env) (results : List WPlan) : List Ev × Bool :=
  results.foldl (cleanStep env) ([], false)

/-- Output of the stage phase: updated file system, the `temp_files` list of
`(temp_file, target)` pairs in the order they were staged, whether any write
failed, and the events. -/
structure StageOut where
  fs : FS
  tmps : List (String × String)
  hadErr : Bool
  events : List Ev
  deriving DecidableEq, Repr

/-- The stage phase of `write_results`: for each result write
`file_path + ".tmp"`; a failed write is reported and flags the error, a
successful one appends to `temp_files`. -/
def stageStep (env : Env) (st : StageOut) (r : WPlan) : StageOut :=
  let tmp := r.file_path ++ ".tmp"
  if env.writeOk tmp then
    { st with fs := fsSet st.fs tmp r.doc,
              tmps := st.tmps ++ [(tmp, r.file_path)],
              events := st.events ++ [.stageWrite tmp] }
  else
    { st with hadErr := true, events := st.events ++ [.stageFail tmp] }

def stagePhase (env : Env) (results : List WPlan) (fs : FS) : StageOut :=
  results.foldl (stageStep env) ⟨fs, [], false, []⟩

/-- Result of the commit loop: all renames done, the `raise` on a first-file
failure, or fuel exhaustion (the Python loop has no fuel; a run that exhausts
every fuel bound models non-termination). -/
inductive CommitOut where
  | done (fs : FS) (events : List Ev) (successCount attempts : Nat)
  | raisedFirst (fs : FS) (events : List Ev) (tmps : List (String × String))
      (successCount attempts : Nat)
  | outOfFuel (fs : FS) (events : List Ev) (tmps : List (String × String))
      (successCount attempts : Nat)
  deriving DecidableEq, Repr

/-- The commit loop of `write_results`:
`while temp_files: temp_file, target = temp_files[-1]; try: os.replace;
temp_files.pop(); success += 1; except: report; if success == 0: raise`.
The element examined is the **last** of `temp_files`, and it is only popped
on success; on failure with an earlier success the loop re-examines the very
same element. -/
def commitLoop (env : Env) : Nat → FS → List (String × String) → Nat → Nat →
    List Ev → CommitOut
  | 0, fs, tmps, sc, att, evs =>
    match tmps with
    | [] => .done fs evs sc att
    | _ => .outOfFuel fs evs tmps sc att
  | fuel + 1, fs, tmps, sc, att, evs =>
    match tmps.getLast? with
    | none => .done fs evs sc att
    | some (tmp, target) =>
      if env.replaceOk att tmp && (fsGet fs tmp).isSome then
        commitLoop env fuel (fsReplace fs tmp target) tmps.dropLast (sc + 1)
          (att + 1) (evs ++ [.renameOk tmp target])
      else if sc = 0 then
        .raisedFirst fs (evs ++ [.renameFail tmp target]) tmps sc (att + 1)
      else
        commitLoop env fuel fs tmps sc (att + 1) (evs ++ [.renameFail tmp target])

/-- The post-commit git loop: for each result with an owning repository,
`repo.index.add`, `repo.git.commit`, `repo.git.push` (modelled as one
event; their failures are outside the claims considered here). -/
def gitCommitAll (results : List WPlan) (evs : List Ev) : List Ev :=
  results.foldl
    (fun evs r =>
      match r.git_repo with
      | none => evs
      | some repo => evs ++ [.gitCommitPush repo r.file_path r.new_version])
    evs

/-- The `finally` block: best-effort `os.remove` of every remaining
temporary file; failures are reported, never escalated. -/
def removeStep (env : Env) (acc : FS × List Ev) (p : String × String) :
    FS × List Ev :=
  if env.removeOk p.1 then (fsRemove acc.1 p.1, acc.2 ++ [.removeTmp p.1])
  else (acc.1, acc.2 ++ [.removeTmpFail p.1])

def cleanupTmps (env : Env) (fs : FS) (tmps : List (String × String))
    (evs : List Ev) : FS × List Ev :=
  tmps.foldl (removeStep env) (fs, evs)

/-- Observable outcome of `write_results`. -/
structure WOut where
  fs : FS
  events : List Ev
  raised : Option String
  outOfFuel : Bool
  successCount : Nat
  deriving DecidableEq, Repr

/-- Packaging of a finished commit loop into the outcome (git commit loop on
success, `finally` cleanup on the re-raised first-rename failure). -/
def finishCommit (env : Env) (results : List WPlan) : CommitOut → WOut
  | .done fs evs sc _ =>
    { fs := fs, events := gitCommitAll results evs, raised := none,
      outOfFuel := false, successCount := sc }
  | .raisedFirst fs evs tmps sc _ =>
    let c := cleanupTmps env fs tmps evs
    { fs := c.1, events := c.2, raised := some "os.replace failed",
      outOfFuel := false, successCount := sc }
  | .outOfFuel fs evs _ sc _ =>
    { fs := fs, events := evs, raised := none, outOfFuel := true,
      successCount := sc }

/-- `write_results(results)` over initial file system `fs0`:
cleanliness pre-pass, stage phase, the `raise` when any error was flagged
(with `finally` cleanup of all staged temporaries), otherwise the commit
loop followed by the git commit loop. -/
def write_results (env : Env) (fuel : Nat) (results : List WPlan) (fs0 : FS) :
    WOut :=
  let clean := cleanCheck env results
  let st := stagePhase env results fs0
  let evs := clean.1 ++ st.events
  if clean.2 || st.hadErr then
    let c := cleanupTmps env st.fs st.tmps evs
    { fs := c.1, events := c.2,
      raised := some "Failed to write one or more temporary files",
      outOfFuel := false, successCount := 0 }
  else
    finishCommit env results (commitLoop env fuel st.fs st.tmps 0 0 evs)

/-- The targets of the successful renames in a trace, in order. -/
def renameTargets (evs : List Ev) : List String :=
  evs.filterMap (fun e => match e with | .renameOk _ t => some t | _ => none)

/-- Is this event an `os.replace` attempt (successful or failed)? -/
def isRenameEv : Ev → Bool
  | .renameOk _ _ => true
  | .renameFail _ _ => true
  | _ => false

/-- Did the commit loop run out of fuel (i.e. is this prefix of the Python
loop still running)? -/
def isOutOfFuel : CommitOut → Bool
  | .outOfFuel _ _ _ _ _ => true
  | _ => false

/-- The `os.replace` attempts (successful or failed) in a trace. -/
def renameEvents (evs : List Ev) : List Ev :=
  evs.filter isRenameEv

/-! ## Directory walk model (`apply_version_bump`)

`os.walk` is an OS facility; its output for a given tree is supplied as an
input: a list of `(top, dirs)` entries in `os.walk`'s top-down order.  The
oracles give the outcomes of `os.path.isdir`, `is_git_repo` and
`(path / "pyproject.toml").exists()`.  Manifest processing
(`apply_version_bump_to_file`) is modelled as recording the manifest path
with the repository attributed to it (`git_repo_stack[-1]`); its own failure
modes are modelled separately (`fetchStepOfApplyToFile`). -/

structure WalkEnv where
  isDir : String → Bool
  isGitRepo : String → Bool
  hasToml : String → Bool

def joinPath (a b : String) : String := a ++ "/" ++ b

/-- Walk state: the `git_repo_stack` (initially `[None]`), the accumulated
`(manifest path, attributed repository)` results, the per-source
`source_toml_found_at`, and the count of duplicate-manifest diagnostics. -/
structure WalkSt where
  stack : List (Option String)
  results : List (String × Option String)
  found : Option String
  dupWarnings : Nat
  deriving DecidableEq, Repr

/-- `git_repo_stack[-1]`: Python raises `IndexError` on an empty list. -/
def stackTop (stack : List (Option String)) : Except String (Option String) :=
  match stack.getLast? with
  | some v => .ok v
  | none => .error "IndexError: list index out of range"

/-- The body of the inner `for d in dirs:` loop: push the directory if it is
a repository, process its manifest (if any) against the stack top, and — in
the `finally` — pop once if the stack is nonempty, whether or not anything
was pushed. -/
def visitChild (env : WalkEnv) (st : WalkSt) (top d : String) :
    Except String WalkSt := do
  let p := joinPath top d
  let stack1 := if env.isGitRepo p then st.stack ++ [some p] else st.stack
  let st1 ←
    if env.hasToml p then do
      let repo ← stackTop stack1
      pure { st with
        stack := stack1,
        results := st.results ++ [(joinPath p "pyproject.toml", repo)],
        found := some (joinPath p "pyproject.toml"),
        dupWarnings := st.dupWarnings + (if st.found.isSome then 1 else 0) }
    else
      pure { st with stack := stack1 }
  pure { st1 with
    stack := if st1.stack.isEmpty then st1.stack else st1.stack.dropLast }

/-- Processing of one `source` argument.  A source that is not a directory is
skipped: `if os.path.isdir(source):` has no `else` branch.  A directory
source pushes itself if it is a repository, processes its own manifest, runs
the walk, raises `RuntimeError` when no manifest was found anywhere under it,
and — in the `finally` — pops once if the stack is nonempty. -/
def processSource (env : WalkEnv) (walk : String → List (String × List String))
    (st : WalkSt) (source : String) : Except String WalkSt :=
  if env.isDir source then do
    let stack1 := if env.isGitRepo source then st.stack ++ [some source]
      else st.stack
    let st0 := { st with stack := stack1, found := none }
    let st1 ←
      if env.hasToml source then do
        let repo ← stackTop st0.stack
        pure { st0 with
          results := st0.results ++ [(joinPath source "pyproject.toml", repo)],
          found := some (joinPath source "pyproject.toml") }
      else pure st0
    let st2 ← (walk source).foldlM
      (fun st entry => entry.2.foldlM (fun st d => visitChild env st entry.1 d) st)
      st1
    if st2.found.isNone then
      .error ("No pyproject.toml found in " ++ source)
    else
      pure { st2 with
        stack := if st2.stack.isEmpty then st2.stack else st2.stack.dropLast }
  else
    pure st

/-- `apply_version_bump(sources, ...)`: fold the sources over an initial
stack `[None]`; any raised error aborts the whole run. -/
def apply_version_bump (env : WalkEnv)
    (walk : String → List (String × List String)) (sources : List String) :
    Except String WalkSt :=
  sources.foldlM (processSource env walk) ⟨[none], [], none, 0⟩

/-! ## Tag fetch model (`fetch_and_get_fetched_tags` and its caller) -/

/-- The Python value returned by `fetch_and_get_fetched_tags`: the success
path returns the tuple `(updated_local_tags, list(fetched_tags))`; the
`except` path returns the empty **list** `[]`. -/
inductive PyTagsValue where
  | tuple2 (allTags : List String) (fetched : List String)
  | emptyList
  deriving DecidableEq, Repr

/-- Per-repository tag environment: local tags before and after
`git fetch --tags`, and whether any step of the fetch raised. -/
structure FetchEnv where
  localTagsBefore : List String
  localTagsAfter : List String
  fetchRaises : Bool

/-- `fetch_and_get_fetched_tags`: on success, the pair of the updated local
tag set and the newly fetched delta; on any exception, print the error and
`return []`. -/
def fetch_and_get_fetched_tags (env : FetchEnv) : PyTagsValue :=
  if env.fetchRaises then .emptyList
  else .tuple2 env.localTagsAfter
    (env.localTagsAfter.filter (fun t => decide (t ∉ env.localTagsBefore)))

/-- Python tuple unpacking `a, b = v`: a two-tuple unpacks; the empty list
raises `ValueError`. -/
def unpackPair : PyTagsValue → Except String (List String × List String)
  | .tuple2 a b => .ok (a, b)
  | .emptyList => .error "ValueError: not enough values to unpack (expected 2, got 0)"

/-- The tag-fetch step at the top of `apply_version_bump_to_file`:
`all_tags, fetched_tags = fetch_and_get_fetched_tags(git_repo, verbose)`
when `fetch_remote_tags` is set, else both stay `None`.  An error here
propagates out of `apply_version_bump_to_file` (there is no handler all the
way up), aborting the run. -/
def fetchStepOfApplyToFile (fetch_remote_tags : Bool) (env : FetchEnv) :
    Except String (Option (List String) × Option (List String)) :=
  if fetch_remote_tags then do
    let p ← unpackPair (fetch_and_get_fetched_tags env)
    pure (some p.1, some p.2)
  else
    pure (none, none)

/-! ## Tag creation model (`write_tags`) -/

/-- The fields of `VersionBumpResult` read by `write_tags`. -/
structure TagPlan where
  git_repo : Option String
  new_version : String
  all_tags : Option (List String)
  deriving DecidableEq, Repr

/-- `VersionBumpResult.new_version_tag_already_exists`:
`self.all_tags and f"v{self.new_version}" in self.all_tags` — `None` and the
empty set are falsy. -/
def new_version_tag_already_exists (r : TagPlan) : Bool :=
  match r.all_tags with
  | none => false
  | some ts => !ts.isEmpty && decide (("v" ++ r.new_version) ∈ ts)

/-- The actions `write_tags` performs for one result: when it has an owning
repository and the new tag does not already exist, `repo.git.tag(...)` then
`repo.git.push("origin", ...)`. -/
def tagActions (r : TagPlan) : List Ev :=
  match r.git_repo with
  | none => []
  | some repo =>
    if !new_version_tag_already_exists r then
      [.createTag repo ("v" ++ r.new_version),
       .pushTag repo "origin" ("v" ++ r.new_version)]
    else []

/-- `write_tags(results)`: the per-result actions in result order. -/
def write_tags (results : List TagPlan) : List Ev :=
  results.flatMap tagActions

/-! ## Concrete scenarios

Environments and inputs instantiating the oracles at the concrete runs the
claims talk about. -/

/-- A run with one manifest whose owning repository `repo` is dirty; every
OS operation succeeds. -/
def wrEnvDirty : Env where
  isRepoDir := fun s => s = "repo"
  isDirty := fun s => s = "repo"
  hasUntracked := fun _ => false
  writeOk := fun _ => true
  replaceOk := fun _ _ => true
  removeOk := fun _ => true

/-- The single plan of the dirty-repository run. -/
def dirtyPlan : WPlan :=
  ⟨"repo/pkgA/pyproject.toml", "newdoc", some "repo", "1.3.0"⟩

/-- Clean repositories, all writes succeed, but `os.replace` persistently
fails on `b.tmp`. -/
def wrEnvRenameFailB : Env where
  isRepoDir := fun _ => false
  isDirty := fun _ => false
  hasUntracked := fun _ => false
  writeOk := fun _ => true
  replaceOk := fun _ t => !(t = "b.tmp" : Bool)
  removeOk := fun _ => true

/-- Clean repositories, every OS operation succeeds. -/
def wrEnvAllOk : Env where
  isRepoDir := fun _ => false
  isDirty := fun _ => false
  hasUntracked := fun _ => false
  writeOk := fun _ => true
  replaceOk := fun _ _ => true
  removeOk := fun _ => true

/-- Clean repositories, but the temporary-file write for `b` fails. -/
def wrEnvWriteFailB : Env where
  isRepoDir := fun _ => false
  isDirty := fun _ => false
  hasUntracked := fun _ => false
  writeOk := fun t => !(t = "b.tmp" : Bool)
  replaceOk := fun _ _ => true
  removeOk := fun _ => true

/-- Three staged manifests `a`, `b`, `c`, in plan order. -/
def threePlans : List WPlan :=
  [⟨"a", "A2", none, "1.1.0"⟩, ⟨"b", "B2", none, "1.1.0"⟩,
   ⟨"c", "C2", none, "1.1.0"⟩]

/-- Initial contents of the three targets. -/
def threeFs : FS := [("a", "A1"), ("b", "B1"), ("c", "C1")]

/-- Two staged manifests `a`, `b`, in plan order. -/
def twoPlans : List WPlan :=
  [⟨"a", "A2", none, "1.1.0"⟩, ⟨"b", "B2", none, "1.1.0"⟩]

/-- Initial contents of the two targets. -/
def twoFs : FS := [("a", "A1"), ("b", "B1")]

/-- The nested-repository tree of the boundary-attribution scenario:
`parent` and `parent/sub` are repositories, manifests live in
`parent/sub/pkgA` and `parent/pkgB`. -/
def walkEnvNested : WalkEnv where
  isDir := fun s => s = "parent"
  isGitRepo := fun s => s = "parent" || s = "parent/sub"
  hasToml := fun s => s = "parent/sub/pkgA" || s = "parent/pkgB"

/-- `os.walk("parent")` on that tree, in top-down order. -/
def walkNested : String → List (String × List String) := fun s =>
  if s = "parent" then
    [("parent", ["sub", "pkgB"]), ("parent/sub", ["pkgA"]),
     ("parent/sub/pkgA", []), ("parent/pkgB", [])]
  else []

/-- An environment in which `pkgA/pyproject.toml` is an existing file (so
not a directory); nothing else exists. -/
def walkEnvFileSource : WalkEnv where
  isDir := fun _ => false
  isGitRepo := fun _ => false
  hasToml := fun _ => false

/-- An environment with a single empty directory `src` (no repository, no
manifest anywhere). -/
def walkEnvEmptyDir : WalkEnv where
  isDir := fun s => s = "src"
  isGitRepo := fun _ => false
  hasToml := fun _ => false

/-! ### Round-trip properties of decimal rendering -/

theorem digitChar_isDigit (d : Nat) : (digitChar d).isDigit = true := by
  unfold digitChar; split_ifs <;> decide

theorem digitChar_val (d : Nat) (h : d < 10) : (digitChar d).toNat - 48 = d := by
  interval_cases d <;> decide

theorem isDigit_ne_dot (c : Char) (h : c.isDigit = true) : c ≠ '.' :=
  fun hc => absurd h (by rw [hc]; decide)

theorem natRepr_ne_nil (n : Nat) : natRepr n ≠ [] := by
  rw [natRepr_eq]
  by_cases h10 : n < 10 <;> simp [h10]

theorem natRepr_all_digit (n : Nat) : ∀ c ∈ natRepr n, c.isDigit = true := by
  induction n using Nat.strong_induction_on with
  | _ n ih =>
    rw [natRepr_eq]
    by_cases h10 : n < 10
    · simp [h10, digitChar_isDigit]
    · have hlt : n / 10 < n := Nat.div_lt_self (by omega) (by omega)
      simp only [h10, if_false, List.mem_append, List.mem_singleton]
      rintro c (hc | rfl)
      · exact ih _ hlt c hc
      · exact digitChar_isDigit _

theorem natRepr_no_dot (n : Nat) : '.' ∉ natRepr n := by
  intro h
  exact isDigit_ne_dot '.' (natRepr_all_digit n '.' h) rfl

theorem digitsVal_append_singleton (xs : List Char) (c : Char) :
    digitsVal (xs ++ [c]) = 10 * digitsVal xs + (c.toNat - 48) := by
  simp [digitsVal, List.foldl_append]

theorem digitsVal_natRepr (n : Nat) : digitsVal (natRepr n) = n := by
  induction n using Nat.strong_induction_on with
  | _ n ih =>
    rw [natRepr_eq]
    by_cases h10 : n < 10
    · rw [if_pos h10]
      have := digitChar_val n h10
      simp [digitsVal]
      omega
    · have hlt : n / 10 < n := Nat.div_lt_self (by omega) (by omega)
      rw [if_neg h10, digitsVal_append_singleton, ih _ hlt,
        digitChar_val _ (Nat.mod_lt _ (by omega))]
      omega

theorem splitDot_of_no_dot (xs : List Char) (h : '.' ∉ xs) :
    splitDot xs = [xs] := by
  induction xs with
  | nil => rfl
  | cons c rest ih =>
    have hc : c ≠ '.' := by intro hc; exact h (by simp [hc])
    have hrest : '.' ∉ rest := fun hm => h (List.mem_cons_of_mem _ hm)
    simp only [splitDot, if_neg hc, ih hrest]

theorem splitDot_append_dot (xs ys : List Char) (h : '.' ∉ xs) :
    splitDot (xs ++ '.' :: ys) = xs :: splitDot ys := by
  induction xs with
  | nil => simp [splitDot]
  | cons c rest ih =>
    have hc : c ≠ '.' := by intro hc; exact h (by simp [hc])
    have hrest : '.' ∉ rest := fun hm => h (List.mem_cons_of_mem _ hm)
    have ihh := ih hrest
    rw [List.cons_append]
    simp only [splitDot, if_neg hc]
    rw [ihh]

theorem isDigitGroup_natRepr (n : Nat) : isDigitGroup (natRepr n) = true := by
  have h1 : (natRepr n).isEmpty = false := by
    cases hr : natRepr n with
    | nil => exact absurd hr (natRepr_ne_nil n)
    | cons c rest => rfl
  simp [isDigitGroup, h1, List.all_eq_true]
  exact natRepr_all_digit n

/-- Parsing inverts rendering: the decimal rendering of `(x, y, z)` parses
back to `(x, y, z)`. -/
theorem parseVersion_renderVersion (x y z : Nat) :
    parseVersion (renderVersion x y z) = some (x, y, z) := by
  have hsplit : splitDot (natRepr x ++ '.' :: (natRepr y ++ '.' :: natRepr z)) =
      natRepr x :: natRepr y :: [natRepr z] := by
    rw [splitDot_append_dot _ _ (natRepr_no_dot x),
      splitDot_append_dot _ _ (natRepr_no_dot y),
      splitDot_of_no_dot _ (natRepr_no_dot z)]
  have hdata : parseVersion (renderVersion x y z) =
      parseVersionChars (natRepr x ++ '.' :: (natRepr y ++ '.' :: natRepr z)) := rfl
  rw [hdata]
  unfold parseVersionChars
  rw [hsplit]
  simp [isDigitGroup_natRepr, digitsVal_natRepr]

/-! ## Claims about version arithmetic -/

/-- Claim C4: for every version string of the form `X.Y.Z`, `bump_version`
returns `(X+1).0.0` for level `major`, `X.(Y+1).0` for `minor` and
`X.Y.(Z+1)` for `patch`: the bumped component increments by exactly one and
every component below it resets to zero (stated both as the rendered string
and by parsing the output back). -/
theorem C4_bump_version_resets_lower_components (v : String) (x y z : Nat)
    (h : parseVersion v = some (x, y, z)) :
    bump_version v "major" = .ok (renderVersion (x + 1) 0 0) ∧
    parseVersion (renderVersion (x + 1) 0 0) = some (x + 1, 0, 0) ∧
    bump_version v "minor" = .ok (renderVersion x (y + 1) 0) ∧
    parseVersion (renderVersion x (y + 1) 0) = some (x, y + 1, 0) ∧
    bump_version v "patch" = .ok (renderVersion x y (z + 1)) ∧
    parseVersion (renderVersion x y (z + 1)) = some (x, y, z + 1) := by
  refine ⟨?_, parseVersion_renderVersion _ _ _, ?_, parseVersion_renderVersion _ _ _,
    ?_, parseVersion_renderVersion _ _ _⟩ <;>
  · unfold bump_version
    rw [h]
    rfl

/-- Witness for C4 at the concrete version `1.2.3`. -/
theorem C4_witness :
    parseVersion "1.2.3" = some (1, 2, 3) ∧
    (bump_version "1.2.3" "major" = .ok (renderVersion 2 0 0) ∧
     parseVersion (renderVersion 2 0 0) = some (2, 0, 0) ∧
     bump_version "1.2.3" "minor" = .ok (renderVersion 1 3 0) ∧
     parseVersion (renderVersion 1 3 0) = some (1, 3, 0) ∧
     bump_version "1.2.3" "patch" = .ok (renderVersion 1 2 4) ∧
     parseVersion (renderVersion 1 2 4) = some (1, 2, 4)) :=
  ⟨by decide, C4_bump_version_resets_lower_components "1.2.3" 1 2 3 (by decide)⟩

/-- Claim C10: on every valid `X.Y.Z` input and recognized level,
`bump_version` returns a string that itself parses as `X.Y.Z` and whose
parsed triple is strictly greater in the lexicographic order: bumping is
closed over valid versions and strictly increasing. -/
theorem C10_bump_version_closed_and_increasing (v lvl : String) (x y z : Nat)
    (h : parseVersion v = some (x, y, z))
    (hlvl : lvl = "major" ∨ lvl = "minor" ∨ lvl = "patch") :
    ∃ w p, bump_version v lvl = .ok w ∧ parseVersion w = some p ∧
      versionLt (x, y, z) p := by
  rcases hlvl with rfl | rfl | rfl
  · exact ⟨renderVersion (x + 1) 0 0, (x + 1, 0, 0),
      by unfold bump_version; rw [h]; rfl,
      parseVersion_renderVersion _ _ _, by simp [versionLt]⟩
  · exact ⟨renderVersion x (y + 1) 0, (x, y + 1, 0),
      by unfold bump_version; rw [h]; rfl,
      parseVersion_renderVersion _ _ _, by simp [versionLt]⟩
  · exact ⟨renderVersion x y (z + 1), (x, y, z + 1),
      by unfold bump_version; rw [h]; rfl,
      parseVersion_renderVersion _ _ _, by simp [versionLt]⟩

/-- Witness for C10 at `1.2.3`, level `minor`. -/
theorem C10_witness :
    parseVersion "1.2.3" = some (1, 2, 3) ∧
    (∃ w p, bump_version "1.2.3" "minor" = .ok w ∧ parseVersion w = some p ∧
      versionLt (1, 2, 3) p) :=
  ⟨by decide, C10_bump_version_closed_and_increasing "1.2.3" "minor" 1 2 3
    (by decide) (Or.inr (Or.inl rfl))⟩

/-! ## Claims about tag publication -/

/-- Claim C8: for a plan with an owning repository whose reconciled tag set
is attached, `write_tags` creates and pushes `v{new_version}` to `origin`
exactly when that tag is absent from the tag set, and a second publish run
against the repository that now has the tag performs no tag action. -/
theorem C8_write_tags_iff_tag_absent (repo v : String) (ts : List String) :
    (write_tags [⟨some repo, v, some ts⟩] =
      if ("v" ++ v) ∈ ts then []
      else [.createTag repo ("v" ++ v), .pushTag repo "origin" ("v" ++ v)]) ∧
    write_tags [⟨some repo, v, some (("v" ++ v) :: ts)⟩] = [] := by
  constructor
  · cases ts with
    | nil => simp [write_tags, tagActions, new_version_tag_already_exists]
    | cons a l =>
      by_cases hm : ("v" ++ v) ∈ a :: l
      · simp [write_tags, tagActions, new_version_tag_already_exists, hm]
      · simp [write_tags, tagActions, new_version_tag_already_exists, hm]
  · simp [write_tags, tagActions, new_version_tag_already_exists]

/-! ## Claims about tag reconciliation failure -/

/-- Claim C6: when the remote-tag fetch raises, `fetch_and_get_fetched_tags`
returns the empty list, and the caller's tuple unpacking
`all_tags, fetched_tags = ...` therefore raises `ValueError`, aborting the
run — it never yields a pair (in particular not the pair of empty
collections the specification describes). -/
theorem C6_fetch_failure_aborts_run (before after : List String) :
    fetchStepOfApplyToFile true ⟨before, after, true⟩ =
      .error "ValueError: not enough values to unpack (expected 2, got 0)" ∧
    ∀ a f, fetchStepOfApplyToFile true ⟨before, after, true⟩ ≠ .ok (a, f) := by
  refine ⟨rfl, ?_⟩
  intro a f hcontra
  rw [show fetchStepOfApplyToFile true ⟨before, after, true⟩ =
    .error "ValueError: not enough values to unpack (expected 2, got 0)" from rfl]
    at hcontra
  exact Except.noConfusion hcontra

/-! ## Claims about the directory walk -/

/-- Claim C3: on the tree `parent/(git)  parent/sub/(git)
parent/sub/pkgA/pyproject.toml  parent/pkgB/pyproject.toml`, the walk
attributes `pkgB` to `parent` but attributes `pkgA` to **no** repository
(`None`), not to `sub`: the unconditional pop in the inner `finally` has
drained the stack before `pkgA` is visited. -/
theorem C3_nested_repo_misattribution :
    (apply_version_bump walkEnvNested walkNested ["parent"]).map WalkSt.results =
      .ok [("parent/pkgB/pyproject.toml", some "parent"),
           ("parent/sub/pkgA/pyproject.toml", none)] ∧
    (apply_version_bump walkEnvNested walkNested ["parent"]).map WalkSt.results ≠
      .ok [("parent/pkgB/pyproject.toml", some "parent"),
           ("parent/sub/pkgA/pyproject.toml", some "parent/sub")] := by
  refine ⟨rfl, ?_⟩
  intro hcontra
  rw [show (apply_version_bump walkEnvNested walkNested ["parent"]).map WalkSt.results =
      .ok [("parent/pkgB/pyproject.toml", some "parent"),
           ("parent/sub/pkgA/pyproject.toml", none)] from rfl] at hcontra
  simp at hcontra

/-- Claim C9: a source argument that is not a directory (e.g. a literal
manifest file path) is silently skipped — the run returns successfully with
no result and no error for it — while a directory source without any
manifest does raise the fatal error. -/
theorem C9_file_source_silently_skipped :
    apply_version_bump walkEnvFileSource (fun _ => []) ["pkgA/pyproject.toml"] =
      .ok ⟨[none], [], none, 0⟩ ∧
    apply_version_bump walkEnvEmptyDir (fun _ => []) ["src"] =
      .error "No pyproject.toml found in src" :=
  ⟨rfl, rfl⟩

/-! ## Claims about the transactional writer -/

/-- Claim C1: with a single plan whose owning repository `repo` is dirty,
`write_results` detects no cleanliness violation (the check is invoked on
the manifest *file* path, which is not a repository directory, so
`is_repo_clean` reports clean), proceeds to stage, rename and git-commit,
and overwrites the target manifest — no violation is collected and no abort
happens, although the model's own checker reports `repo` itself dirty. -/
theorem C1_dirty_repo_gate_never_fires :
    write_results wrEnvDirty 2 [dirtyPlan] [("repo/pkgA/pyproject.toml", "olddoc")] =
      ⟨[("repo/pkgA/pyproject.toml", "newdoc")],
       [.stageWrite "repo/pkgA/pyproject.toml.tmp",
        .renameOk "repo/pkgA/pyproject.toml.tmp" "repo/pkgA/pyproject.toml",
        .gitCommitPush "repo" "repo/pkgA/pyproject.toml" "1.3.0"],
       none, false, 1⟩ ∧
    is_repo_clean wrEnvDirty "repo" = (false, "has uncommitted changes") ∧
    is_repo_clean wrEnvDirty dirtyPlan.file_path = (true, "not a git repository") := by
  refine ⟨by decide, by decide, by decide⟩

/-- The packaging of a commit-loop outcome preserves the fuel-exhaustion
marker. -/
theorem finishCommit_outOfFuel (env : Env) (results : List WPlan)
    (o : CommitOut) : (finishCommit env results o).outOfFuel = isOutOfFuel o := by
  cases o <;> rfl

/-- With a persistent rename failure on `b.tmp` and at least one prior
success, the commit loop re-examines `temp_files[-1] = ("b.tmp", "b")`
forever: every fuel bound is exhausted. -/
theorem commitLoop_stuck_on_b (n : Nat) :
    ∀ (fs : FS) (sc att : Nat) (evs : List Ev), sc ≠ 0 →
      isOutOfFuel (commitLoop wrEnvRenameFailB n fs
        [("a.tmp", "a"), ("b.tmp", "b")] sc att evs) = true := by
  induction n with
  | zero => intro fs sc att evs hsc; rfl
  | succ n ih =>
    intro fs sc att evs hsc
    have h1 : commitLoop wrEnvRenameFailB (n + 1) fs
        [("a.tmp", "a"), ("b.tmp", "b")] sc att evs =
        if sc = 0 then
          CommitOut.raisedFirst fs (evs ++ [.renameFail "b.tmp" "b"])
            [("a.tmp", "a"), ("b.tmp", "b")] sc (att + 1)
        else
          commitLoop wrEnvRenameFailB n fs [("a.tmp", "a"), ("b.tmp", "b")]
            sc (att + 1) (evs ++ [.renameFail "b.tmp" "b"]) := rfl
    rw [h1, if_neg hsc]
    exact ih fs sc (att + 1) (evs ++ [.renameFail "b.tmp" "b"]) hsc

/-- Claim C2: with three staged files and a persistent rename failure on the
second plan's file, the run does **not** attempt each remaining rename once
and terminate with a partial success: the loop commits the *third* file
first (renames run from the end of the list), then retries the second
file's rename forever — for every fuel bound the loop is still running, the
success count stays at `1`, and the first file's rename is never attempted. -/
theorem C2_commit_loop_nontermination :
    (∀ fuel, (write_results wrEnvRenameFailB fuel threePlans threeFs).outOfFuel
      = true) ∧
    write_results wrEnvRenameFailB 5 threePlans threeFs =
      ⟨[("a", "A1"), ("b", "B1"), ("c", "C2"), ("a.tmp", "A2"), ("b.tmp", "B2")],
       [.stageWrite "a.tmp", .stageWrite "b.tmp", .stageWrite "c.tmp",
        .renameOk "c.tmp" "c", .renameFail "b.tmp" "b", .renameFail "b.tmp" "b",
        .renameFail "b.tmp" "b", .renameFail "b.tmp" "b"],
       none, true, 1⟩ := by
  constructor
  · intro fuel
    match fuel with
    | 0 => rfl
    | n + 1 =>
      have h2 : write_results wrEnvRenameFailB (n + 1) threePlans threeFs =
          finishCommit wrEnvRenameFailB threePlans
            (commitLoop wrEnvRenameFailB n
              [("a", "A1"), ("b", "B1"), ("c", "C2"), ("a.tmp", "A2"),
               ("b.tmp", "B2")]
              [("a.tmp", "a"), ("b.tmp", "b")] 1 1
              [.stageWrite "a.tmp", .stageWrite "b.tmp", .stageWrite "c.tmp",
               .renameOk "c.tmp" "c"]) := rfl
      rw [h2, finishCommit_outOfFuel]
      exact commitLoop_stuck_on_b n _ 1 1 _ (by omega)
  · decide

/-- Counterexample to claim C5 as stated: in an all-success run with two
plans `a` then `b`, the renames are performed in the order `b`, `a` —
the reverse of the plan list's order. -/
theorem C5_counterexample :
    renameTargets (write_results wrEnvAllOk 2 twoPlans twoFs).events = ["b", "a"] ∧
    twoPlans.map WPlan.file_path = ["a", "b"] ∧
    (["b", "a"] : List String) ≠ ["a", "b"] := by decide

/-! ### File-system lemmas -/

theorem fsGet_fsSet_self (fs : FS) (p v : String) :
    fsGet (fsSet fs p v) p = some v := by
  induction fs with
  | nil => simp [fsSet, fsGet]
  | cons hd tl ih =>
    obtain ⟨q, w⟩ := hd
    by_cases h : q = p
    · simp [fsSet, h, fsGet]
    · simp [fsSet, h, fsGet, ih]

theorem fsGet_fsSet_ne (fs : FS) (p v q : String) (h : q ≠ p) :
    fsGet (fsSet fs p v) q = fsGet fs q := by
  have hpq : ¬(p = q) := fun hc => h hc.symm
  induction fs with
  | nil => simp [fsSet, fsGet, hpq]
  | cons hd tl ih =>
    obtain ⟨a, b⟩ := hd
    by_cases ha : a = p
    · subst ha
      simp [fsSet, fsGet, hpq]
    · simp [fsSet, ha, fsGet, ih]

theorem fsGet_fsRemove_self (fs : FS) (p : String) :
    fsGet (fsRemove fs p) p = none := by
  induction fs with
  | nil => simp [fsRemove, fsGet]
  | cons hd tl ih =>
    obtain ⟨a, b⟩ := hd
    by_cases ha : a = p
    · simp [fsRemove, ha, ih]
    · simp [fsRemove, ha, fsGet, ih]

theorem fsGet_fsRemove_ne (fs : FS) (p q : String) (h : q ≠ p) :
    fsGet (fsRemove fs p) q = fsGet fs q := by
  have hpq : ¬(p = q) := fun hc => h hc.symm
  induction fs with
  | nil => simp [fsRemove]
  | cons hd tl ih =>
    obtain ⟨a, b⟩ := hd
    by_cases ha : a = p
    · subst ha
      simp [fsRemove, fsGet, hpq, ih]
    · simp [fsRemove, ha, fsGet, ih]

theorem fsGet_fsReplace_ne (fs : FS) (src dst q : String) (h1 : q ≠ src)
    (h2 : q ≠ dst) : fsGet (fsReplace fs src dst) q = fsGet fs q := by
  unfold fsReplace
  cases hsrc : fsGet fs src with
  | none => rfl
  | some v => rw [fsGet_fsRemove_ne _ _ _ h1, fsGet_fsSet_ne _ _ _ _ h2]

/-! ### Stage-phase lemmas -/

theorem stageFold_fs_untouched (env : Env) (results : List WPlan) :
    ∀ (st : StageOut) (path : String),
      (∀ p ∈ results, path ≠ p.file_path ++ ".tmp") →
      fsGet (results.foldl (stageStep env) st).fs path = fsGet st.fs path := by
  induction results with
  | nil => intro st path _; rfl
  | cons r rest ih =>
    intro st path h
    rw [List.foldl_cons, ih _ path (fun p hp => h p (List.mem_cons_of_mem _ hp))]
    unfold stageStep
    by_cases hw : env.writeOk (r.file_path ++ ".tmp")
    · simp only [hw, if_true]
      exact fsGet_fsSet_ne _ _ _ _ (h r (by simp))
    · simp [hw]

theorem stageFold_isSome_mono (env : Env) (results : List WPlan) :
    ∀ (st : StageOut) (q : String), (fsGet st.fs q).isSome = true →
      (fsGet (results.foldl (stageStep env) st).fs q).isSome = true := by
  induction results with
  | nil => intro st q h; exact h
  | cons r rest ih =>
    intro st q h
    rw [List.foldl_cons]
    refine ih _ q ?_
    unfold stageStep
    by_cases hw : env.writeOk (r.file_path ++ ".tmp")
    · simp only [hw, if_true]
      by_cases hq : q = r.file_path ++ ".tmp"
      · subst hq; rw [fsGet_fsSet_self]; rfl
      · rw [fsGet_fsSet_ne _ _ _ _ hq]; exact h
    · simp [hw, h]

theorem stageFold_present (env : Env) (results : List WPlan) :
    ∀ (st : StageOut) (p : WPlan), p ∈ results →
      env.writeOk (p.file_path ++ ".tmp") = true →
      (fsGet (results.foldl (stageStep env) st).fs (p.file_path ++ ".tmp")).isSome
        = true := by
  induction results with
  | nil => intro st p hp; exact absurd hp (List.not_mem_nil p)
  | cons r rest ih =>
    intro st p hp hw
    rcases List.mem_cons.mp hp with rfl | hp
    · rw [List.foldl_cons]
      refine stageFold_isSome_mono env rest _ _ ?_
      unfold stageStep
      simp only [hw, if_true]
      rw [fsGet_fsSet_self]; rfl
    · rw [List.foldl_cons]
      exact ih _ p hp hw

theorem stageFold_hadErr (env : Env) (results : List WPlan) :
    ∀ st : StageOut, (results.foldl (stageStep env) st).hadErr =
      (st.hadErr ||
        results.any (fun p => !env.writeOk (p.file_path ++ ".tmp"))) := by
  induction results with
  | nil => intro st; simp
  | cons r rest ih =>
    intro st
    rw [List.foldl_cons, ih]
    unfold stageStep
    by_cases hw : env.writeOk (r.file_path ++ ".tmp") <;>
      simp [hw, Bool.or_assoc]

theorem stageFold_tmps (env : Env) (results : List WPlan) :
    ∀ st : StageOut, (results.foldl (stageStep env) st).tmps = st.tmps ++
      (results.filter (fun p => env.writeOk (p.file_path ++ ".tmp"))).map
        (fun p => (p.file_path ++ ".tmp", p.file_path)) := by
  induction results with
  | nil => intro st; simp
  | cons r rest ih =>
    intro st
    rw [List.foldl_cons, ih]
    unfold stageStep
    by_cases hw : env.writeOk (r.file_path ++ ".tmp") <;>
      simp [hw, List.filter_cons]

theorem stageFold_events (env : Env) (results : List WPlan) :
    ∀ st : StageOut, (results.foldl (stageStep env) st).events = st.events ++
      results.map (fun p =>
        if env.writeOk (p.file_path ++ ".tmp") then
          Ev.stageWrite (p.file_path ++ ".tmp")
        else Ev.stageFail (p.file_path ++ ".tmp")) := by
  induction results with
  | nil => intro st; simp
  | cons r rest ih =>
    intro st
    rw [List.foldl_cons, ih]
    unfold stageStep
    by_cases hw : env.writeOk (r.file_path ++ ".tmp") <;> simp [hw]

/-! ### Cleanliness pre-pass lemmas -/

theorem cleanFold_hadErr (env : Env) (results : List WPlan) :
    ∀ acc : List Ev × Bool, (results.foldl (cleanStep env) acc).2 =
      (acc.2 || results.any (fun r => !(is_repo_clean env r.file_path).1)) := by
  induction results with
  | nil => intro acc; simp
  | cons r rest ih =>
    intro acc
    rw [List.foldl_cons, ih]
    unfold cleanStep
    by_cases hc : (is_repo_clean env r.file_path).1 <;> simp [hc, Bool.or_assoc]

theorem cleanFold_events (env : Env) (results : List WPlan) :
    ∀ acc : List Ev × Bool, (results.foldl (cleanStep env) acc).1 = acc.1 ++
      results.filterMap (fun r =>
        if (is_repo_clean env r.file_path).1 then none
        else some (Ev.reportUnclean r.file_path (is_repo_clean env r.file_path).2)) := by
  induction results with
  | nil => intro acc; simp
  | cons r rest ih =>
    intro acc
    rw [List.foldl_cons, ih]
    unfold cleanStep
    by_cases hc : (is_repo_clean env r.file_path).1 <;>
      simp [hc, List.filterMap_cons]

/-! ### Cleanup lemmas -/

theorem cleanupFold_events (env : Env) (tmps : List (String × String)) :
    ∀ acc : FS × List Ev, (tmps.foldl (removeStep env) acc).2 = acc.2 ++
      tmps.map (fun p =>
        if env.removeOk p.1 then Ev.removeTmp p.1 else Ev.removeTmpFail p.1) := by
  induction tmps with
  | nil => intro acc; simp
  | cons t rest ih =>
    intro acc
    rw [List.foldl_cons, ih]
    unfold removeStep
    by_cases hr : env.removeOk t.1 <;> simp [hr]

theorem cleanupFold_fs_untouched (env : Env) (tmps : List (String × String)) :
    ∀ (acc : FS × List Ev) (q : String), (∀ t ∈ tmps, q ≠ t.1) →
      fsGet (tmps.foldl (removeStep env) acc).1 q = fsGet acc.1 q := by
  induction tmps with
  | nil => intro acc q _; rfl
  | cons t rest ih =>
    intro acc q h
    rw [List.foldl_cons, ih _ q (fun u hu => h u (List.mem_cons_of_mem _ hu))]
    unfold removeStep
    by_cases hr : env.removeOk t.1
    · simp only [hr, if_true]
      exact fsGet_fsRemove_ne _ _ _ (h t (by simp))
    · simp [hr]

theorem cleanupFold_none_mono (env : Env) (tmps : List (String × String)) :
    ∀ (acc : FS × List Ev) (q : String), fsGet acc.1 q = none →
      fsGet (tmps.foldl (removeStep env) acc).1 q = none := by
  induction tmps with
  | nil => intro acc q h; exact h
  | cons t rest ih =>
    intro acc q h
    rw [List.foldl_cons]
    refine ih _ q ?_
    unfold removeStep
    by_cases hr : env.removeOk t.1
    · simp only [hr, if_true]
      by_cases hq : q = t.1
      · subst hq; exact fsGet_fsRemove_self _ _
      · rw [fsGet_fsRemove_ne _ _ _ hq]; exact h
    · simp [hr, h]

theorem cleanupFold_removes (env : Env) (tmps : List (String × String)) :
    ∀ (acc : FS × List Ev) (q : String), (∃ t ∈ tmps, t.1 = q) →
      env.removeOk q = true →
      fsGet (tmps.foldl (removeStep env) acc).1 q = none := by
  induction tmps with
  | nil =>
    intro acc q h _
    obtain ⟨t, ht, _⟩ := h
    exact absurd ht (List.not_mem_nil t)
  | cons t rest ih =>
    intro acc q h hrm
    rcases h with ⟨u, hu, hq⟩
    rcases List.mem_cons.mp hu with rfl | hu
    · subst hq
      rw [List.foldl_cons]
      refine cleanupFold_none_mono env rest _ _ ?_
      unfold removeStep
      simp only [hrm, if_true]
      exact fsGet_fsRemove_self _ _
    · rw [List.foldl_cons]
      exact ih _ q ⟨u, hu, hq⟩ hrm

/-! ### Git commit-loop lemma -/

theorem gitCommitAll_events (results : List WPlan) :
    ∀ evs : List Ev, gitCommitAll results evs = evs ++
      results.filterMap (fun r => r.git_repo.map
        (fun repo => Ev.gitCommitPush repo r.file_path r.new_version)) := by
  induction results with
  | nil => intro evs; simp [gitCommitAll]
  | cons r rest ih =>
    intro evs
    unfold gitCommitAll at ih ⊢
    rw [List.foldl_cons]
    cases hg : r.git_repo with
    | none => rw [ih]; simp [hg, List.filterMap_cons]
    | some repo => rw [ih]; simp [hg, List.filterMap_cons]

/-! ### Commit-loop lemma: all renames succeed -/

/-- When every `os.replace` succeeds, the commit loop pops the `temp_files`
list from its end: the renames happen in reverse staging order, and it
terminates with `done` whenever the fuel covers the list length. -/
theorem commitLoop_all_success (env : Env)
    (hrep : ∀ att t, env.replaceOk att t = true) :
    ∀ (tmps : List (String × String)) (fuel : Nat) (fs : FS) (sc att : Nat)
      (evs : List Ev),
      tmps.length ≤ fuel →
      (∀ p ∈ tmps, (fsGet fs p.1).isSome = true) →
      (∀ p ∈ tmps, ∀ q ∈ tmps, p.1 ≠ q.2) →
      (tmps.map Prod.fst).Nodup →
      ∃ fs', commitLoop env fuel fs tmps sc att evs =
        .done fs' (evs ++ tmps.reverse.map (fun p => Ev.renameOk p.1 p.2))
          (sc + tmps.length) (att + tmps.length) := by
  intro tmps
  induction tmps using List.reverseRecOn with
  | nil =>
    intro fuel fs sc att evs _ _ _ _
    refine ⟨fs, ?_⟩
    cases fuel <;> simp [commitLoop]
  | append_singleton ts p ih =>
    intro fuel fs sc att evs hf hp hd hn
    obtain ⟨tmp, tgt⟩ := p
    have hflen : ts.length + 1 ≤ fuel := by
      simpa using hf
    obtain ⟨f, rfl⟩ : ∃ f, fuel = f + 1 := ⟨fuel - 1, by omega⟩
    have hpres : (fsGet fs tmp).isSome = true :=
      hp (tmp, tgt) (List.mem_append_right _ (by simp))
    have hcond : (env.replaceOk att tmp && (fsGet fs tmp).isSome) = true := by
      rw [hrep, hpres]; rfl
    have hstep : commitLoop env (f + 1) fs (ts ++ [(tmp, tgt)]) sc att evs =
        commitLoop env f (fsReplace fs tmp tgt) ts (sc + 1) (att + 1)
          (evs ++ [Ev.renameOk tmp tgt]) := by
      simp only [commitLoop, List.getLast?_concat, hcond, if_true,
        List.dropLast_concat]
    have htmpnotin : tmp ∉ ts.map Prod.fst := by
      rw [List.map_append] at hn
      intro hmem
      exact (List.nodup_append.mp hn).2.2 hmem (by simp)
    have hps : ∀ q ∈ ts, (fsGet (fsReplace fs tmp tgt) q.1).isSome = true := by
      intro q hq
      have h1 : q.1 ≠ tmp := by
        intro hc
        exact htmpnotin (hc ▸ List.mem_map_of_mem Prod.fst hq)
      have h2 : q.1 ≠ tgt :=
        hd q (List.mem_append_left _ hq) (tmp, tgt) (List.mem_append_right _ (by simp))
      rw [fsGet_fsReplace_ne _ _ _ _ h1 h2]
      exact hp q (List.mem_append_left _ hq)
    have hd' : ∀ p ∈ ts, ∀ q ∈ ts, p.1 ≠ q.2 := fun p hp' q hq' =>
      hd p (List.mem_append_left _ hp') q (List.mem_append_left _ hq')
    have hn' : (ts.map Prod.fst).Nodup := by
      rw [List.map_append] at hn
      exact (List.nodup_append.mp hn).1
    obtain ⟨fs', heq⟩ := ih f (fsReplace fs tmp tgt) (sc + 1) (att + 1)
      (evs ++ [Ev.renameOk tmp tgt]) (by omega) hps hd' hn'
    refine ⟨fs', ?_⟩
    rw [hstep, heq]
    have hrev : (ts ++ [(tmp, tgt)]).reverse.map (fun p => Ev.renameOk p.1 p.2) =
        Ev.renameOk tmp tgt :: ts.reverse.map (fun p => Ev.renameOk p.1 p.2) := by
      simp
    rw [hrev]
    have hlen : (ts ++ [(tmp, tgt)]).length = ts.length + 1 := by simp
    rw [hlen]
    congr 1
    · simp
    · omega
    · omega

/-! ### Branch selection of `write_results` -/

/-- When any cleanliness violation or stage-write failure was flagged,
`write_results` raises after the stage phase, cleaning up the staged
temporaries. -/
theorem write_results_error_branch (env : Env) (fuel : Nat)
    (plans : List WPlan) (fs0 : FS)
    (h : ((cleanCheck env plans).2 || (stagePhase env plans fs0).hadErr) = true) :
    write_results env fuel plans fs0 =
      { fs := (cleanupTmps env (stagePhase env plans fs0).fs
          (stagePhase env plans fs0).tmps
          ((cleanCheck env plans).1 ++ (stagePhase env plans fs0).events)).1,
        events := (cleanupTmps env (stagePhase env plans fs0).fs
          (stagePhase env plans fs0).tmps
          ((cleanCheck env plans).1 ++ (stagePhase env plans fs0).events)).2,
        raised := some "Failed to write one or more temporary files",
        outOfFuel := false, successCount := 0 } := by
  unfold write_results
  rw [if_pos h]

/-- When neither pre-pass flagged an error, `write_results` proceeds to the
commit loop. -/
theorem write_results_commit_branch (env : Env) (fuel : Nat)
    (plans : List WPlan) (fs0 : FS)
    (h : ((cleanCheck env plans).2 || (stagePhase env plans fs0).hadErr) = false) :
    write_results env fuel plans fs0 =
      finishCommit env plans (commitLoop env fuel (stagePhase env plans fs0).fs
        (stagePhase env plans fs0).tmps 0 0
        ((cleanCheck env plans).1 ++ (stagePhase env plans fs0).events)) := by
  unfold write_results
  rw [if_neg (by rw [h]; exact Bool.false_ne_true)]

/-! ### Wrappers of the fold lemmas at the phase level -/

theorem stagePhase_hadErr (env : Env) (plans : List WPlan) (fs0 : FS) :
    (stagePhase env plans fs0).hadErr =
      plans.any (fun p => !env.writeOk (p.file_path ++ ".tmp")) := by
  unfold stagePhase
  rw [stageFold_hadErr]
  rfl

theorem stagePhase_tmps (env : Env) (plans : List WPlan) (fs0 : FS) :
    (stagePhase env plans fs0).tmps =
      (plans.filter (fun p => env.writeOk (p.file_path ++ ".tmp"))).map
        (fun p => (p.file_path ++ ".tmp", p.file_path)) := by
  unfold stagePhase
  rw [stageFold_tmps]
  rfl

theorem stagePhase_events (env : Env) (plans : List WPlan) (fs0 : FS) :
    (stagePhase env plans fs0).events = plans.map (fun p =>
      if env.writeOk (p.file_path ++ ".tmp") then
        Ev.stageWrite (p.file_path ++ ".tmp")
      else Ev.stageFail (p.file_path ++ ".tmp")) := by
  unfold stagePhase
  rw [stageFold_events]
  rfl

theorem stagePhase_fs_untouched (env : Env) (plans : List WPlan) (fs0 : FS)
    (path : String) (h : ∀ p ∈ plans, path ≠ p.file_path ++ ".tmp") :
    fsGet (stagePhase env plans fs0).fs path = fsGet fs0 path := by
  unfold stagePhase
  exact stageFold_fs_untouched env plans _ path h

theorem stagePhase_present (env : Env) (plans : List WPlan) (fs0 : FS)
    (p : WPlan) (hp : p ∈ plans) (hw : env.writeOk (p.file_path ++ ".tmp") = true) :
    (fsGet (stagePhase env plans fs0).fs (p.file_path ++ ".tmp")).isSome = true := by
  unfold stagePhase
  exact stageFold_present env plans _ p hp hw

theorem cleanCheck_hadErr (env : Env) (plans : List WPlan) :
    (cleanCheck env plans).2 =
      plans.any (fun r => !(is_repo_clean env r.file_path).1) := by
  unfold cleanCheck
  rw [cleanFold_hadErr]
  rfl

theorem cleanCheck_events (env : Env) (plans : List WPlan) :
    (cleanCheck env plans).1 = plans.filterMap (fun r =>
      if (is_repo_clean env r.file_path).1 then none
      else some (Ev.reportUnclean r.file_path (is_repo_clean env r.file_path).2)) := by
  unfold cleanCheck
  rw [cleanFold_events]
  rfl

theorem cleanupTmps_events (env : Env) (fs : FS) (tmps : List (String × String))
    (evs : List Ev) : (cleanupTmps env fs tmps evs).2 = evs ++
      tmps.map (fun p =>
        if env.removeOk p.1 then Ev.removeTmp p.1 else Ev.removeTmpFail p.1) := by
  unfold cleanupTmps
  rw [cleanupFold_events]

theorem cleanupTmps_fs_untouched (env : Env) (fs : FS)
    (tmps : List (String × String)) (evs : List Ev) (q : String)
    (h : ∀ t ∈ tmps, q ≠ t.1) :
    fsGet (cleanupTmps env fs tmps evs).1 q = fsGet fs q := by
  unfold cleanupTmps
  exact cleanupFold_fs_untouched env tmps _ q h

theorem cleanupTmps_removes (env : Env) (fs : FS)
    (tmps : List (String × String)) (evs : List Ev) (q : String)
    (h : ∃ t ∈ tmps, t.1 = q) (hrm : env.removeOk q = true) :
    fsGet (cleanupTmps env fs tmps evs).1 q = none := by
  unfold cleanupTmps
  exact cleanupFold_removes env tmps _ q h hrm

/-! ### Event-classification lemmas -/

theorem renameEvents_clean_nil (env : Env) (plans : List WPlan) :
    renameEvents (plans.filterMap (fun r =>
      if (is_repo_clean env r.file_path).1 then none
      else some (Ev.reportUnclean r.file_path (is_repo_clean env r.file_path).2)))
      = [] := by
  unfold renameEvents
  induction plans with
  | nil => rfl
  | cons r rest ih =>
    by_cases hc : (is_repo_clean env r.file_path).1 <;>
      simp [List.filterMap_cons, hc, List.filter_cons, isRenameEv, ih]

theorem renameEvents_stage_nil (env : Env) (plans : List WPlan) :
    renameEvents (plans.map (fun p =>
      if env.writeOk (p.file_path ++ ".tmp") then
        Ev.stageWrite (p.file_path ++ ".tmp")
      else Ev.stageFail (p.file_path ++ ".tmp"))) = [] := by
  unfold renameEvents
  induction plans with
  | nil => rfl
  | cons p rest ih =>
    by_cases hw : env.writeOk (p.file_path ++ ".tmp") <;>
      simp [hw, List.filter_cons, isRenameEv, ih]

theorem renameEvents_remove_nil (env : Env) (tmps : List (String × String)) :
    renameEvents (tmps.map (fun p =>
      if env.removeOk p.1 then Ev.removeTmp p.1 else Ev.removeTmpFail p.1)) = [] := by
  unfold renameEvents
  induction tmps with
  | nil => rfl
  | cons t rest ih =>
    by_cases hr : env.removeOk t.1 <;>
      simp [hr, List.filter_cons, isRenameEv, ih]

theorem renameEvents_git_nil (plans : List WPlan) :
    renameEvents (plans.filterMap (fun r => r.git_repo.map
      (fun repo => Ev.gitCommitPush repo r.file_path r.new_version))) = [] := by
  unfold renameEvents
  induction plans with
  | nil => rfl
  | cons r rest ih =>
    cases hg : r.git_repo <;>
      simp [List.filterMap_cons, hg, List.filter_cons, isRenameEv, ih]

theorem renameEvents_append (a b : List Ev) :
    renameEvents (a ++ b) = renameEvents a ++ renameEvents b := by
  simp [renameEvents]

theorem renameTargets_append (a b : List Ev) :
    renameTargets (a ++ b) = renameTargets a ++ renameTargets b := by
  simp [renameTargets]

theorem renameTargets_nil_of_renameEvents_nil (evs : List Ev)
    (h : renameEvents evs = []) : renameTargets evs = [] := by
  induction evs with
  | nil => rfl
  | cons e rest ih =>
    unfold renameEvents at h
    rw [List.filter_cons] at h
    by_cases he : isRenameEv e = true
    · rw [if_pos he] at h
      exact absurd h (by simp)
    · rw [if_neg he] at h
      have hstep : renameTargets (e :: rest) = renameTargets rest := by
        cases e <;> simp [renameTargets, List.filterMap_cons]
        simp [isRenameEv] at he
      rw [hstep]
      exact ih h

theorem renameTargets_renames (tmps : List (String × String)) :
    renameTargets (tmps.map (fun p => Ev.renameOk p.1 p.2)) =
      tmps.map Prod.snd := by
  unfold renameTargets
  induction tmps with
  | nil => rfl
  | cons t rest ih => simp [List.filterMap_cons, ih]

/-- Shared: whenever an error was flagged before the commit phase, the trace
contains no `os.replace` attempt at all. -/
theorem error_branch_no_renames (env : Env) (fuel : Nat) (plans : List WPlan)
    (fs0 : FS)
    (h : ((cleanCheck env plans).2 || (stagePhase env plans fs0).hadErr) = true) :
    renameEvents (write_results env fuel plans fs0).events = [] := by
  rw [write_results_error_branch env fuel plans fs0 h]
  show renameEvents (cleanupTmps env _ _ _).2 = []
  rw [cleanupTmps_events, renameEvents_append, renameEvents_append,
    cleanCheck_events, stagePhase_events, renameEvents_clean_nil,
    renameEvents_stage_nil, renameEvents_remove_nil]
  rfl

/-- Claim C5 (amended): the commit phase is entered only if every plan's
temporary file was staged successfully, and it renames the staged files one
at a time in the **reverse** of the plan list's order (the last plan's file
first).  Part one: a stage failure means no rename is ever attempted.  Part
two: in a run with clean repositories, all stage writes and all renames
succeeding, and enough fuel, the sequence of renamed targets is exactly the
reversed plan list and nothing is raised. -/
theorem C5_commit_gated_and_reverse_order (env : Env) (fuel : Nat)
    (plans : List WPlan) (fs0 : FS) :
    ((∃ p ∈ plans, env.writeOk (p.file_path ++ ".tmp") = false) →
      renameEvents (write_results env fuel plans fs0).events = []) ∧
    ((∀ p ∈ plans, (is_repo_clean env p.file_path).1 = true) →
     (∀ p ∈ plans, env.writeOk (p.file_path ++ ".tmp") = true) →
     (∀ att t, env.replaceOk att t = true) →
     (plans.map WPlan.file_path).Nodup →
     (∀ p ∈ plans, ∀ q ∈ plans, p.file_path ≠ q.file_path ++ ".tmp") →
     plans.length ≤ fuel →
      renameTargets (write_results env fuel plans fs0).events =
        (plans.map WPlan.file_path).reverse ∧
      (write_results env fuel plans fs0).raised = none) := by
  constructor
  · intro hfail
    apply error_branch_no_renames
    have h1 : (stagePhase env plans fs0).hadErr = true := by
      rw [stagePhase_hadErr, List.any_eq_true]
      obtain ⟨p, hp, hw⟩ := hfail
      exact ⟨p, hp, by rw [hw]; rfl⟩
    rw [h1, Bool.or_true]
  · intro hclean hwrite hreplace hnodup hnotmp hfuel
    have hcleanOK : (cleanCheck env plans).2 = false := by
      rw [cleanCheck_hadErr, List.any_eq_false]
      intro r hr
      rw [hclean r hr]
      simp
    have hstageOK : (stagePhase env plans fs0).hadErr = false := by
      rw [stagePhase_hadErr, List.any_eq_false]
      intro p hp
      rw [hwrite p hp]
      simp
    have hbranch := write_results_commit_branch env fuel plans fs0
      (by rw [hcleanOK, hstageOK]; rfl)
    have htmps : (stagePhase env plans fs0).tmps =
        plans.map (fun p => (p.file_path ++ ".tmp", p.file_path)) := by
      rw [stagePhase_tmps, List.filter_eq_self.mpr hwrite]
    have hinj : Function.Injective (fun s : String => s ++ ".tmp") := by
      intro a b hab
      have h2 : a.data ++ (".tmp" : String).data = b.data ++ (".tmp" : String).data := by
        have h3 := congrArg String.data hab
        simpa [String.data_append] using h3
      exact String.ext (List.append_cancel_right h2)
    have hmapfst : (plans.map (fun p => (p.file_path ++ ".tmp", p.file_path))).map
        Prod.fst = (plans.map WPlan.file_path).map (fun s => s ++ ".tmp") := by
      rw [List.map_map, List.map_map]
      rfl
    obtain ⟨fs', heq⟩ := commitLoop_all_success env hreplace
      (plans.map (fun p => (p.file_path ++ ".tmp", p.file_path))) fuel
      (stagePhase env plans fs0).fs 0 0
      ((cleanCheck env plans).1 ++ (stagePhase env plans fs0).events)
      (by rw [List.length_map]; exact hfuel)
      (by
        intro q hq
        obtain ⟨p, hp, rfl⟩ := List.mem_map.mp hq
        exact stagePhase_present env plans fs0 p hp (hwrite p hp))
      (by
        intro q hq u hu
        obtain ⟨p, hp, rfl⟩ := List.mem_map.mp hq
        obtain ⟨r, hr, rfl⟩ := List.mem_map.mp hu
        exact fun hc => hnotmp r hr p hp hc.symm)
      (by
        rw [hmapfst]
        exact List.Nodup.map hinj hnodup)
    rw [hbranch, htmps, heq]
    constructor
    · show renameTargets (gitCommitAll plans _) = _
      rw [gitCommitAll_events, renameTargets_append, renameTargets_append,
        renameTargets_append]
      rw [renameTargets_nil_of_renameEvents_nil _
          (by rw [cleanCheck_events]; exact renameEvents_clean_nil env plans),
        renameTargets_nil_of_renameEvents_nil _
          (by rw [stagePhase_events]; exact renameEvents_stage_nil env plans),
        renameTargets_nil_of_renameEvents_nil _ (renameEvents_git_nil plans),
        renameTargets_renames]
      rw [List.map_reverse, List.map_map]
      simp
    · rfl

/-- Witness for C5 (amended): a run whose second stage write fails performs
no rename, and an all-success two-plan run renames `b` then `a` (the reverse
of the plan order) and raises nothing. -/
theorem C5_witness :
    renameEvents (write_results wrEnvWriteFailB 5 threePlans threeFs).events
      = [] ∧
    renameTargets (write_results wrEnvAllOk 2 twoPlans twoFs).events =
      (twoPlans.map WPlan.file_path).reverse ∧
    (write_results wrEnvAllOk 2 twoPlans twoFs).raised = none := by
  refine ⟨(C5_commit_gated_and_reverse_order wrEnvWriteFailB 5 threePlans
      threeFs).1 (by decide), ?_, ?_⟩
  · exact ((C5_commit_gated_and_reverse_order wrEnvAllOk 2 twoPlans twoFs).2
      (by decide) (by decide) (fun att t => rfl) (by decide) (by decide)
      (by decide)).1
  · exact ((C5_commit_gated_and_reverse_order wrEnvAllOk 2 twoPlans twoFs).2
      (by decide) (by decide) (fun att t => rfl) (by decide) (by decide)
      (by decide)).2

/-- Claim C7: if any plan's temporary-file serialization fails during the
stage phase, the whole operation aborts with the stage `RuntimeError`
(regardless of removal failures), no rename is attempted, every target
manifest path keeps its original content, and every temporary file that was
written in the phase is removed whenever its `os.remove` succeeds. -/
theorem C7_stage_failure_full_cleanup (env : Env) (fuel : Nat)
    (plans : List WPlan) (fs0 : FS)
    (hfail : ∃ p ∈ plans, env.writeOk (p.file_path ++ ".tmp") = false)
    (hnotmp : ∀ p ∈ plans, ∀ q ∈ plans, p.file_path ≠ q.file_path ++ ".tmp") :
    (write_results env fuel plans fs0).raised =
      some "Failed to write one or more temporary files" ∧
    renameEvents (write_results env fuel plans fs0).events = [] ∧
    (∀ p ∈ plans, fsGet (write_results env fuel plans fs0).fs p.file_path =
      fsGet fs0 p.file_path) ∧
    (∀ p ∈ plans, env.writeOk (p.file_path ++ ".tmp") = true →
      env.removeOk (p.file_path ++ ".tmp") = true →
      fsGet (write_results env fuel plans fs0).fs (p.file_path ++ ".tmp")
        = none) := by
  have h1 : (stagePhase env plans fs0).hadErr = true := by
    rw [stagePhase_hadErr, List.any_eq_true]
    obtain ⟨p, hp, hw⟩ := hfail
    exact ⟨p, hp, by rw [hw]; rfl⟩
  have hcond : ((cleanCheck env plans).2 || (stagePhase env plans fs0).hadErr)
      = true := by rw [h1, Bool.or_true]
  have hbranch := write_results_error_branch env fuel plans fs0 hcond
  refine ⟨by rw [hbranch], error_branch_no_renames env fuel plans fs0 hcond,
    ?_, ?_⟩
  · intro p hp
    rw [hbranch]
    show fsGet (cleanupTmps env _ _ _).1 p.file_path = fsGet fs0 p.file_path
    rw [cleanupTmps_fs_untouched]
    · exact stagePhase_fs_untouched env plans fs0 p.file_path (hnotmp p hp)
    · intro t ht
      rw [stagePhase_tmps] at ht
      obtain ⟨q, hq, rfl⟩ := List.mem_map.mp ht
      exact hnotmp p hp q (List.mem_of_mem_filter hq)
  · intro p hp hw hrm
    rw [hbranch]
    show fsGet (cleanupTmps env _ _ _).1 (p.file_path ++ ".tmp") = none
    refine cleanupTmps_removes env _ _ _ _ ?_ hrm
    rw [stagePhase_tmps]
    refine ⟨(p.file_path ++ ".tmp", p.file_path), ?_, rfl⟩
    exact List.mem_map_of_mem _ (List.mem_filter.mpr ⟨hp, hw⟩)

/-- Witness for C7 at a concrete three-plan run whose second stage write
fails: the stage error is raised, no rename happens, the target `b` keeps
its content, and the staged temporary `a.tmp` is gone. -/
theorem C7_witness :
    (write_results wrEnvWriteFailB 5 threePlans threeFs).raised =
      some "Failed to write one or more temporary files" ∧
    renameEvents (write_results wrEnvWriteFailB 5 threePlans threeFs).events
      = [] ∧
    fsGet (write_results wrEnvWriteFailB 5 threePlans threeFs).fs "b" =
      fsGet threeFs "b" ∧
    fsGet (write_results wrEnvWriteFailB 5 threePlans threeFs).fs "a.tmp" =
      none := by
  have h := C7_stage_failure_full_cleanup wrEnvWriteFailB 5 threePlans threeFs
    (by decide) (by decide)
  exact ⟨h.1, h.2.1,
    h.2.2.1 ⟨"b", "B2", none, "1.1.0"⟩ (by decide),
    h.2.2.2 ⟨"a", "A2", none, "1.1.0"⟩ (by decide) (by decide) (by decide)⟩

/-- Sanity anchors at the string level: the embedded `bump_version` produces
the exact strings of the specification's examples and rejects the malformed
inputs it lists. -/
theorem bump_version_string_examples :
    bump_version "1.2.3" "minor" = .ok "1.3.0" ∧
    bump_version "1.2.3" "major" = .ok "2.0.0" ∧
    bump_version "0.9.9" "patch" = .ok "0.9.10" ∧
    parseVersion "1.2" = none ∧
    parseVersion "v1.2.3" = none ∧
    parseVersion "1.2.3-rc1" = none :=
  ⟨rfl, rfl, rfl, rfl, rfl, rfl⟩

end ReleaseMaker
